import Mathlib

/-!
Verification of the qPCR ΔΔCt computation engine (`core/compute.py`,
function `compute_ddct` and its inner helper `_flag_outliers`).

Modeling conventions of this shallow embedding:

* A spreadsheet cell is `Cell` (text, number, or empty).  A raw table row is a
  total map from column names to cells (`Row`); absent columns read as
  `Cell.empty`.  A `Table` is the list of its column names plus its rows,
  mirroring the sheet read by `pd.read_excel`.
* Quantification (`Cq`) values are modeled as exact rationals `ℚ`; the Python
  code computes with IEEE doubles.  All numeric claims checked here are exact
  at this idealization.  Fold change `2 ^ (-ΔΔCt)` is real-valued and is
  represented by `foldChange : ℚ → ℝ`.
* A compiled regular expression used via `bool(pattern.search(text))` is
  modeled as an abstract text predicate `String → Bool`; the concrete
  patterns appearing in the scenarios (`^CTR` with IGNORECASE, `ACTB` with
  IGNORECASE) are modeled by the concrete predicates `ciPrefix` and
  `ciContains` below.
* Each `raise ValueError(...)` of the source is one constructor of `QError`,
  carrying the data interpolated into the message (the spec's five error
  kinds).  Python's `sorted(set)` of labels in a message is modeled by
  `List.dedup`; only the set of named labels matters for the claims.
* `pd.Series.median`/`quantile`/`mean`/`std(ddof=0)` are modeled by
  `medianQ`, `quantileQ` (linear interpolation), `meanQ`, and — to stay in
  `ℚ` — the z-score comparison `|v - μ| / σ > t` is expressed equivalently
  without the square root as `t < 0 ∨ (v - μ)² > t² · σ²` (both sides of the
  original comparison are nonnegative once `σ > 0`).
-/

namespace QPCR

/-- One spreadsheet cell: a string, a number, or empty/NaN. -/
inductive Cell where
  | str (s : String)
  | num (q : ℚ)
  | empty
deriving DecidableEq, Repr

/-- Model of `str(cell)` as applied by `df[col].astype(str)`: numbers print,
an empty/NaN cell prints as the string "nan". -/
def cellStr : Cell → String
  | .str s => s
  | .num q => toString q
  | .empty => "nan"

/-- Model of `pd.to_numeric(x, errors="coerce")` on one cell: numeric cells
coerce, text and empty cells become missing (`none`). -/
def toNumeric : Cell → Option ℚ
  | .num q => some q
  | _ => none

/-- A raw table row: a total map from column name to cell (absent columns
read as `Cell.empty`). -/
def Row : Type := String → Cell

/-- A loaded sheet: its column names and its rows, as read by
`pd.read_excel`. -/
structure Table where
  columns : List String
  rows : List Row

/-- ASCII lower-casing of one character (model of `str.lower` on the ASCII
inputs of this pipeline). -/
def lowerChar (c : Char) : Char :=
  if 'A' ≤ c ∧ c ≤ 'Z' then Char.ofNat (c.toNat + 32) else c

/-- ASCII lower-casing of a string, used for `outlier_method.lower()` and for
the case-insensitive concrete pattern predicates. -/
def lowerStr (s : String) : String := String.mk (s.data.map lowerChar)

/-- Character-list prefix test (structural, kernel-computable). -/
def isPrefixList : List Char → List Char → Bool
  | [], _ => true
  | _ :: _, [] => false
  | a :: as, b :: bs => a = b && isPrefixList as bs

/-- Character-list substring test (structural, kernel-computable). -/
def containsSub (pat : List Char) : List Char → Bool
  | [] => isPrefixList pat []
  | c :: cs => isPrefixList pat (c :: cs) || containsSub pat cs

/-- Model of `re.compile(p, re.IGNORECASE).search(s)` for an anchored prefix
pattern such as `^CTR`: case-insensitive "starts with". -/
def ciPrefix (pat : String) (s : String) : Bool :=
  isPrefixList (lowerStr pat).data (lowerStr s).data

/-- Model of `re.compile(p, re.IGNORECASE).search(s)` for a plain literal
pattern such as `ACTB`: case-insensitive "occurs anywhere". -/
def ciContains (pat : String) (s : String) : Bool :=
  containsSub (lowerStr pat).data (lowerStr s).data

/-- Configuration surface of `compute_ddct`, with the source's defaults.
The two regexes are modeled as abstract row-text predicates. -/
structure Config where
  controlPattern : String → Bool
  refPattern : String → Bool
  controlSearchCol : String := "Target"
  refSearchCol : String := "Sample"
  sampleNameCol : String := "Target"
  cqCol : String := "Cq"
  wellCol : String := "Well"
  excludeRefInSampleSheet : Bool := false
  outlierMethod : String := "mad"
  outlierThreshold : ℚ := 3
  outlierMinReps : Nat := 3
  recordOutliers : Bool := true
  enableOutlierFilter : Bool := true

/-- The five terminal errors of the engine (the spec's error taxonomy),
carrying the data the corresponding `ValueError` message interpolates. -/
inductive QError where
  | schema (missing : List String) (present : List String)
  | noControlMatch
  | missingReference (samples : List String)
  | missingControlBaseline (genes : List String)
  | emptyResult
deriving DecidableEq, Repr

/-- Python `{c1,...,c5}`: the set of required column names, as a deduplicated
list. -/
def requiredCols (c : Config) : List String :=
  [c.controlSearchCol, c.refSearchCol, c.sampleNameCol, c.cqCol, c.wellCol].dedup

/-- Required columns absent from the table (`required_cols - set(df.columns)`). -/
def missingCols (c : Config) (t : Table) : List String :=
  (requiredCols c).filter (fun col => col ∉ t.columns)

/-- Stable insertion of `x` before the first strictly greater element. -/
def insertByLt {α : Type} (lt : α → α → Bool) (x : α) : List α → List α
  | [] => [x]
  | y :: ys => if lt x y then x :: y :: ys else y :: insertByLt lt x ys

/-- Stable insertion sort; used both for the numeric order statistics and for
the deterministic `sort_values(..., kind="mergesort")` of the output sheets. -/
def sortByLt {α : Type} (lt : α → α → Bool) (l : List α) : List α :=
  l.foldr (insertByLt lt) []

/-- Ascending sort of rationals. -/
def sortQ (l : List ℚ) : List ℚ := sortByLt (fun a b => decide (a < b)) l

/-- Mean of a list of rationals (`Series.mean`); 0 on the empty list, which
the callers below always guard. -/
def meanQ (l : List ℚ) : ℚ := l.sum / (l.length : ℚ)

/-- Median of a list of rationals (`Series.median`): middle element of the
sorted list, or the average of the two middle elements. -/
def medianQ (l : List ℚ) : ℚ :=
  let s := sortQ l
  let n := s.length
  if n = 0 then 0
  else if n % 2 = 1 then s.getD (n / 2) 0
  else (s.getD (n / 2 - 1) 0 + s.getD (n / 2) 0) / 2

/-- Quantile with linear interpolation (`Series.quantile`, numpy "linear"):
at fractional position `p * (n - 1)` of the sorted list. -/
def quantileQ (l : List ℚ) (p : ℚ) : ℚ :=
  let s := sortQ l
  let n := s.length
  if n = 0 then 0
  else
    let h : ℚ := p * ((n : ℚ) - 1)
    let i : Nat := (⌊h⌋).toNat
    if i + 1 < n then s.getD i 0 + (h - (i : ℚ)) * (s.getD (i + 1) 0 - s.getD i 0)
    else s.getD i 0

/-- Translation of `_flag_outliers` for a single value `v` of the series
`vals`: whether `v` is flagged by `method` at threshold `thresh`.  The
pandas version computes a flag per index from the value at that index, so a
per-value function is an exact model.  Spread-zero guards mirror
`if mad == 0 or pd.isna(mad)` etc.; over `ℚ` the `isna` disjunct can only
fire through the empty series, where our `medianQ`/`meanQ` already return 0.
Unknown method names fall through to "flag nothing" (the final `else`). -/
def flagOutlierVal (method : String) (thresh : ℚ) (vals : List ℚ) (v : ℚ) : Bool :=
  if method = "mad" then
    let med := medianQ vals
    let madv := (1.4826 : ℚ) * medianQ (vals.map (fun x => |x - med|))
    if madv = 0 then false
    else decide (thresh < |v - med| / madv)
  else if method = "iqr" then
    let q1 := quantileQ vals (1/4)
    let q3 := quantileQ vals (3/4)
    let iqr := q3 - q1
    if iqr = 0 then false
    else decide (v < q1 - thresh * iqr) || decide (q3 + thresh * iqr < v)
  else if method = "zscore" then
    let mu := meanQ vals
    let v2 := meanQ (vals.map (fun x => (x - mu) * (x - mu)))
    if v2 = 0 then false
    else decide (thresh < 0) || decide (thresh * thresh * v2 < (v - mu) * (v - mu))
  else false

/-- One working row after the load/validate and classify stages: the five
configured columns resolved, `Cq` numeric, the two role flags (computed, as
in the source, before any outlier is removed), and the parsed
`Group`/`_SampleLabel`. -/
structure WRow where
  controlSearch : String
  refSearch : String
  sampleName : String
  cq : ℚ
  well : Cell
  isRef : Bool
  isControl : Bool
  group : String
  sampleLabel : String
deriving DecidableEq, Repr

/-- Split a character list at its last occurrence of `sep`, returning the
parts before and after it, or `none` when `sep` does not occur. -/
def splitAtLastSep (sep : Char) : List Char → Option (List Char × List Char)
  | [] => none
  | c :: cs =>
    match splitAtLastSep sep cs with
    | some (b, a) => some (c :: b, a)
    | none => if c = sep then some ([], cs) else none

/-- Model of `_split_group_sample`: `label.rsplit('-', 1)[0]` as the group
when a hyphen occurs, else the whole label. -/
def splitGroupSample (label : String) : String × String :=
  match splitAtLastSep '-' label.data with
  | some (b, _) => (String.mk b, label)
  | none => (label, label)

/-- Stages 0–2 of `compute_ddct` on one raw row: coerce `Cq` (dropping the
row when non-numeric), stringify the three text columns, evaluate both
pattern masks, parse group and sample label. -/
def loadRow (c : Config) (r : Row) : Option WRow :=
  match toNumeric (r c.cqCol) with
  | none => none
  | some q =>
    let cs := cellStr (r c.controlSearchCol)
    let rs := cellStr (r c.refSearchCol)
    let sn := cellStr (r c.sampleNameCol)
    some
      { controlSearch := cs
        refSearch := rs
        sampleName := sn
        cq := q
        well := r c.wellCol
        isRef := c.refPattern rs
        isControl := c.controlPattern cs
        group := (splitGroupSample sn).1
        sampleLabel := (splitGroupSample sn).2 }

/-- The working rows: every raw row with a numeric quantification value, in
sheet order (`df.dropna(subset=[cq_col])` keeps order). -/
def loadRows (c : Config) (t : Table) : List WRow :=
  t.rows.filterMap (loadRow c)

/-- Whether the control pattern matched at least one (numeric-Cq) row; the
check `if not control_mask.any(): raise`. -/
def hasControlB (c : Config) (t : Table) : Bool :=
  (loadRows c t).any (fun r => r.isControl)

/-- The `(Sample × Gene)` partition of `r` inside `rows`
(`df.groupby(["_SampleLabel", ref_search_col])`). -/
def partitionOf (rows : List WRow) (r : WRow) : List WRow :=
  rows.filter (fun r2 => r2.sampleLabel = r.sampleLabel ∧ r2.refSearch = r.refSearch)

/-- Translation of `_group_flag` made pointwise: a row is flagged iff its
partition reaches `outlier_min_reps` rows and `_flag_outliers` (with the
lower-cased method name) flags its value within the partition's series. -/
def flaggedRow (c : Config) (rows : List WRow) (r : WRow) : Bool :=
  let g := partitionOf rows r
  if g.length < c.outlierMinReps then false
  else flagOutlierVal (lowerStr c.outlierMethod) c.outlierThreshold (g.map (fun x => x.cq)) r.cq

/-- The outlier-filter stage: when enabled, split the working rows into the
kept rows (`df = df.loc[~df["_Outlier"]]`) and the removed rows
(`outliers_df`); when disabled, keep everything and record nothing. -/
def filterOutliers (c : Config) (rows : List WRow) : List WRow × List WRow :=
  if c.enableOutlierFilter then
    (rows.filter (fun r => flaggedRow c rows r = false),
     rows.filter (fun r => flaggedRow c rows r = true))
  else (rows, [])

/-- Rows that survive the outlier filter and reach the ΔCt stage. -/
def survivingRows (c : Config) (t : Table) : List WRow :=
  (filterOutliers c (loadRows c t)).1

/-- Per-sample reference mean (`ref_per_sample`): the mean `Cq` over the
surviving reference-gene rows of a sample, or `none` when that sample has no
surviving reference row (a NaN after the left merge, in the source). -/
def refMean (rows : List WRow) (s : String) : Option ℚ :=
  let refs := rows.filter (fun r => r.isRef = true ∧ r.sampleLabel = s)
  if refs.isEmpty then none else some (meanQ (refs.map (fun r => r.cq)))

/-- Samples listed by the missing-reference `ValueError`: sample labels of
surviving rows whose reference mean is undefined (`sorted(unique)` modeled
up to order by `dedup`). -/
def noRefSamples (rows : List WRow) : List String :=
  ((rows.filter (fun r => (refMean rows r.sampleLabel).isNone)).map
    (fun r => r.sampleLabel)).dedup

/-- A working row with its ΔCt column (`df["ΔCt"] = df[cq_col] - df["ref_mean_cq"]`).
Only used after the missing-reference check has passed, so the `getD 0`
default is never exercised in the pipeline. -/
structure DRow extends WRow where
  dct : ℚ
deriving DecidableEq, Repr

/-- Attach ΔCt to every surviving row. -/
def withDct (rows : List WRow) : List DRow :=
  rows.map (fun r => { toWRow := r, dct := r.cq - (refMean rows r.sampleLabel).getD 0 })

/-- Distinct control samples contributing to gene `g`
(the `groupby(["_SampleLabel", ref_search_col])` index restricted to `g`). -/
def controlSamplesForGene (rows : List DRow) (g : String) : List String :=
  ((rows.filter (fun r => r.isControl = true ∧ r.refSearch = g)).map
    (fun r => r.sampleLabel)).dedup

/-- ΔCt values of the control rows of sample `s` and gene `g`. -/
def controlDcts (rows : List DRow) (s g : String) : List ℚ :=
  (rows.filter (fun r => r.isControl = true ∧ r.sampleLabel = s ∧ r.refSearch = g)).map
    (fun r => r.dct)

/-- Stage-one control average: mean ΔCt of one control sample for one gene
(`control_per_sample`). -/
def perSampleControlMean (rows : List DRow) (s g : String) : ℚ :=
  meanQ (controlDcts rows s g)

/-- Stage-two control average (`control_baseline`): the mean over control
samples of the per-sample means — one scalar per gene; `none` when the gene
has no control rows (a NaN after the left merge, in the source). -/
def controlBaseline (rows : List DRow) (g : String) : Option ℚ :=
  let ss := controlSamplesForGene rows g
  if ss.isEmpty then none
  else some (meanQ (ss.map (fun s => perSampleControlMean rows s g)))

/-- Genes listed by the missing-control-baseline `ValueError`: genes of
surviving rows with no control baseline. -/
def noBaselineGenes (rows : List DRow) : List String :=
  ((rows.filter (fun r => (controlBaseline rows r.refSearch).isNone)).map
    (fun r => r.refSearch)).dedup

/-- A row with its ΔΔCt column (`df["ΔΔCt"] = df["ΔCt"] - df["control_mean_ΔCt"]`).
Only built after the baseline check has passed, so `getD 0` is never
exercised in the pipeline. -/
structure FRow extends DRow where
  ddct : ℚ
deriving DecidableEq, Repr

/-- Attach ΔΔCt to every row. -/
def withDdct (rows : List DRow) : List FRow :=
  rows.map (fun r => { toDRow := r, ddct := r.dct - (controlBaseline rows r.refSearch).getD 0 })

/-- One row of the "well" output sheet.  Its Fold Change column is the
derived real value `(2 : ℝ) ^ (-(ddct : ℝ))` and carries no further
information, so it is not stored separately; theorems about fold change
state that expression directly. -/
structure RRow where
  gene : String
  group : String
  sample : String
  well : Cell
  cq : ℚ
  dct : ℚ
  ddct : ℚ
deriving DecidableEq, Repr

/-- Strict lexicographic order on character lists (ordinary string order on
the ASCII labels involved). -/
def strLtList : List Char → List Char → Bool
  | [], [] => false
  | [], _ :: _ => true
  | _ :: _, [] => false
  | a :: as, b :: bs => decide (a < b) || (a = b && strLtList as bs)

/-- Strict string order used by the deterministic sheet sorts. -/
def strLt (a b : String) : Bool := strLtList a.data b.data

/-- Strict lexicographic order on (Gene, Group, Sample) sort keys. -/
def keyLt3 (a b : String × String × String) : Bool :=
  strLt a.1 b.1 ||
    (a.1 = b.1 && (strLt a.2.1 b.2.1 || (a.2.1 = b.2.1 && strLt a.2.2 b.2.2)))

/-- The "well" sheet: one row per surviving well, stably sorted by
(Gene, Group, Sample). -/
def buildWellRows (rows : List FRow) : List RRow :=
  sortByLt (fun a b => keyLt3 (a.gene, a.group, a.sample) (b.gene, b.group, b.sample))
    (rows.map (fun r =>
      { gene := r.refSearch
        group := r.group
        sample := r.sampleLabel
        well := r.well
        cq := r.cq
        dct := r.dct
        ddct := r.ddct }))

/-- One row of the "sample" output sheet: per-(Group, Sample, Gene) means.
The Fold Change column of this sheet is the mean of `2 ^ (-d)` over
`ddcts` (the member wells' ΔΔCt values, in row order), kept as data because
a mean of real exponentials is not determined by the mean ΔΔCt. -/
structure SRow where
  gene : String
  group : String
  sample : String
  cq : ℚ
  dct : ℚ
  ddct : ℚ
  ddcts : List ℚ
deriving DecidableEq, Repr

/-- The "sample" sheet: group the (possibly reference-excluded) rows by
(Group, Sample, Gene), average each numeric column, and sort by
(Gene, Group, Sample). -/
def buildSampleRows (rows : List FRow) : List SRow :=
  let keys := (rows.map (fun r => (r.group, r.sampleLabel, r.refSearch))).dedup
  let mk := fun (k : String × String × String) =>
    let g := rows.filter (fun r => r.group = k.1 ∧ r.sampleLabel = k.2.1 ∧ r.refSearch = k.2.2)
    { gene := k.2.2
      group := k.1
      sample := k.2.1
      cq := meanQ (g.map (fun r => r.cq))
      dct := meanQ (g.map (fun r => r.dct))
      ddct := meanQ (g.map (fun r => r.ddct))
      ddcts := g.map (fun r => r.ddct) : SRow }
  sortByLt (fun a b => keyLt3 (a.gene, a.group, a.sample) (b.gene, b.group, b.sample))
    (keys.map mk)

/-- One row of the "outliers" audit sheet. -/
structure ORow where
  group : String
  sample : String
  gene : String
  well : Cell
  cq : ℚ
deriving DecidableEq, Repr

/-- The audit sheet rows, sorted by (Gene, Group, Sample, Well). -/
def buildOutlierRows (rows : List WRow) : List ORow :=
  sortByLt
    (fun a b =>
      strLt a.gene b.gene ||
        (a.gene = b.gene &&
          (strLt a.group b.group ||
            (a.group = b.group &&
              (strLt a.sample b.sample ||
                (a.sample = b.sample && strLt (cellStr a.well) (cellStr b.well)))))))
    (rows.map (fun r =>
      { group := r.group
        sample := r.sampleLabel
        gene := r.refSearch
        well := r.well
        cq := r.cq }))

/-- The three result tables returned by `compute_ddct` (the per-well sheet,
the per-sample sheet, and the removed-outlier audit rows). -/
structure RunOutput where
  wellRows : List RRow
  sampleRows : List SRow
  outlierRows : List ORow
deriving DecidableEq, Repr

/-- The rows feeding the "sample" sheet: the ΔΔCt-carrying rows, minus the
reference-gene rows when `exclude_ref_in_sample_sheet` is on. -/
def sampleSourceOf (c : Config) (t : Table) : List FRow :=
  let frows := withDdct (withDct (survivingRows c t))
  if c.excludeRefInSampleSheet then frows.filter (fun r => r.isRef = false) else frows

/-- The full validation-and-computation pipeline of `compute_ddct`, in source
order: schema check, Cq coercion/drop, classification, control-match check,
outlier filtering, ΔCt with the missing-reference check, two-stage control
baseline with the missing-baseline check, ΔΔCt, and the two result sheets
with the empty-sample-sheet check.  Each `raise` is an `Except.error`. -/
def computeDdct (c : Config) (t : Table) : Except QError RunOutput :=
  let missing := missingCols c t
  if missing.isEmpty then
    if ((loadRows c t).any (fun r => r.isControl)) = false then .error .noControlMatch
    else
      let kept := survivingRows c t
      let noRef := noRefSamples kept
      if noRef.isEmpty then
        let drows := withDct kept
        let noBase := noBaselineGenes drows
        if noBase.isEmpty then
          if (sampleSourceOf c t).isEmpty then .error .emptyResult
          else
            .ok
              { wellRows := buildWellRows (withDdct drows)
                sampleRows := buildSampleRows (sampleSourceOf c t)
                outlierRows := buildOutlierRows (filterOutliers c (loadRows c t)).2 }
        else .error (.missingControlBaseline noBase)
      else .error (.missingReference noRef)
  else .error (.schema missing t.columns)

/-- Model of `os.path.split`: split at the last slash; the head keeps no
trailing slashes unless it consists only of slashes. -/
def osSplit (p : String) : String × String :=
  match splitAtLastSep '/' p.data with
  | none => ("", p)
  | some (b, a) =>
    let headRaw := b ++ ['/']
    let stripped := (headRaw.reverse.dropWhile (fun ch => ch = '/')).reverse
    (String.mk (if stripped.isEmpty then headRaw else stripped), String.mk a)

/-- Model of `os.path.splitext` on a basename: split off the part from the
last dot on, unless every character before that dot is itself a dot. -/
def osSplitext (s : String) : String × String :=
  match splitAtLastSep '.' s.data with
  | none => (s, "")
  | some (b, a) =>
    if b.all (fun ch => ch = '.') then (s, "")
    else (String.mk b, String.mk ('.' :: a))

/-- Model of `os.path.join` for one component. -/
def osJoin (a b : String) : String :=
  if a = "" then b
  else if a.data.getLast? = some '/' then a ++ b
  else a ++ "/" ++ b

/-- Output path resolution of step 5: an explicit path wins; otherwise the
artifact goes next to the input as `<stem-without-extension>_ddct.xlsx`
(`output_path = os.path.join(base or ".", f"{root}_ddct.xlsx")`). -/
def resolveOutputPath (excelPath : String) (outputPath : Option String) : String :=
  match outputPath with
  | some p => p
  | none =>
    let base := (osSplit excelPath).1
    let stem := (osSplit excelPath).2
    let root := (osSplitext stem).1
    osJoin (if base = "" then "." else base) (root ++ "_ddct.xlsx")

/-- What the spec's words for the default output location describe: the
input's directory, with `_ddct` inserted before the extension and the
extension kept.  (Modeled from the spec for comparison with
`resolveOutputPath`, which is translated from the source.) -/
def specDefaultOutputPath (excelPath : String) : String :=
  let base := (osSplit excelPath).1
  let stem := (osSplit excelPath).2
  let root := (osSplitext stem).1
  let ext := (osSplitext stem).2
  osJoin (if base = "" then "." else base) (root ++ "_ddct" ++ ext)

/-- One write of named sheets to one workbook path (the single
`pd.ExcelWriter` block). -/
structure WriteEvent where
  path : String
  sheets : List String
deriving DecidableEq, Repr

/-- Sheets written on success: "well", "sample", and — when recording is on
and at least one outlier was removed — "outliers".  (`outliers_df` exists in
`locals()` only under `enable_outlier_filter`, and is then empty whenever the
filter removed nothing, so its presence is equivalent to
`out.outlierRows ≠ []`.) -/
def sheetNamesOf (c : Config) (out : RunOutput) : List String :=
  ["well", "sample"] ++
    (if c.recordOutliers && (out.outlierRows.isEmpty = false) then ["outliers"] else [])

/-- The whole of `compute_ddct` including its one side effect: the returned
trace lists every workbook write performed.  All five `raise` statements
precede the `pd.ExcelWriter` block, so an error run writes nothing. -/
def runDdct (c : Config) (t : Table) (excelPath : String) (outputPath : Option String) :
    List WriteEvent × Except QError RunOutput :=
  match computeDdct c t with
  | .error e => ([], .error e)
  | .ok out => ([⟨resolveOutputPath excelPath outputPath, sheetNamesOf c out⟩], .ok out)

/-- Value of one numeric column of the (unique, in the scenarios below)
"well"-sheet row of sample `s` and gene `g`. -/
def wellField (res : Except QError RunOutput) (s g : String) (f : RRow → ℚ) : Option ℚ :=
  match res with
  | .ok out => (out.wellRows.find? (fun r => r.sample = s ∧ r.gene = g)).map f
  | .error _ => none

/-- A raw row of the conventional layout: the sample label lives in column
"Target", the gene in column "Sample" (the source's default mapping), plus a
numeric Cq and a well id. -/
def mkCells (label gene : String) (cq : ℚ) (w : String) : Row :=
  fun col =>
    if col = "Target" then .str label
    else if col = "Sample" then .str gene
    else if col = "Cq" then .num cq
    else if col = "Well" then .str w
    else .empty

/-- The four columns of the conventional layout. -/
def stdCols : List String := ["Target", "Sample", "Cq", "Well"]

/-- Default configuration with control pattern `^CTR` and reference pattern
`ACTB` (both IGNORECASE, as compiled by the source's default flag). -/
def cfg1 : Config :=
  { controlPattern := ciPrefix "CTR", refPattern := ciContains "ACTB" }

/-- The spec's end-to-end scenario input:
`[(CTR-1, ACTB, 18.0), (CTR-1, GeneX, 22.0), (MT-1, ACTB, 18.5), (MT-1, GeneX, 24.0)]`. -/
def tbl1 : Table :=
  { columns := stdCols
    rows :=
      [mkCells "CTR-1" "ACTB" 18 "A1",
       mkCells "CTR-1" "GeneX" 22 "A2",
       mkCells "MT-1" "ACTB" (37/2) "A3",
       mkCells "MT-1" "GeneX" 24 "A4"] }

/-- Two control samples with different replicate counts for gene GeneX
(CTR-1 has one well, CTR-2 has two), plus a treated sample. -/
def tbl2 : Table :=
  { columns := stdCols
    rows :=
      [mkCells "CTR-1" "ACTB" 18 "B1",
       mkCells "CTR-1" "GeneX" 22 "B2",
       mkCells "CTR-2" "ACTB" 18 "B3",
       mkCells "CTR-2" "GeneX" 20 "B4",
       mkCells "CTR-2" "GeneX" 24 "B5",
       mkCells "MT-1" "ACTB" 18 "B6",
       mkCells "MT-1" "GeneX" 25 "B7"] }

/-- Configuration whose control pattern matches nothing in `tblNoCtl`. -/
def cfgNoCtl : Config :=
  { controlPattern := ciPrefix "ZZZ", refPattern := ciContains "ACTB" }

/-- One numeric row whose sample has no reference-gene row and which matches
no control pattern under `cfgNoCtl`. -/
def tblNoCtl : Table :=
  { columns := stdCols, rows := [mkCells "X-1" "G" 20 "C1"] }

/-- The spec's missing-reference scenario: sample CTR-1 has only target-gene
rows (GeneA does not match the reference pattern). -/
def tblRefMiss : Table :=
  { columns := stdCols, rows := [mkCells "CTR-1" "GeneA" 20 "D1"] }

/-- Aggressive MAD threshold under which a whole control partition is
removed as outliers. -/
def cfg10 : Config :=
  { controlPattern := ciPrefix "CTR", refPattern := ciContains "ACTB",
    outlierThreshold := 1/2 }

/-- Four control wells `CTR-1 × ACTB` with values {0, 0, 10, 10} — every one
of them is flagged by MAD at threshold 1/2 — plus one treated well whose
sample has no reference row. -/
def tbl10 : Table :=
  { columns := stdCols
    rows :=
      [mkCells "CTR-1" "ACTB" 0 "E1",
       mkCells "CTR-1" "ACTB" 0 "E2",
       mkCells "CTR-1" "ACTB" 10 "E3",
       mkCells "CTR-1" "ACTB" 10 "E4",
       mkCells "MT-1" "GeneX" 25 "E5"] }

/-- A table whose sheet lacks the required "Well" column. -/
def tblNoWell : Table :=
  { columns := ["Target", "Sample", "Cq"]
    rows := [mkCells "CTR-1" "ACTB" 18 "F1"] }

/-- Default configuration except for an unrecognized outlier method name. -/
def cfgMedian : Config :=
  { controlPattern := ciPrefix "CTR", refPattern := ciContains "ACTB",
    outlierMethod := "median" }

/-- The working row loaded from the single raw row of `tblNoCtl`. -/
def wX : WRow :=
  { controlSearch := "X-1"
    refSearch := "G"
    sampleName := "X-1"
    cq := 20
    well := .str "C1"
    isRef := false
    isControl := false
    group := "X"
    sampleLabel := "X-1" }

/-- The ΔCt-carrying row loaded from the second raw row of `tbl2`
(CTR-1 × GeneX, ΔCt = 22 - 18 = 4). -/
def d2 : DRow :=
  { controlSearch := "CTR-1"
    refSearch := "GeneX"
    sampleName := "CTR-1"
    cq := 22
    well := .str "B2"
    isRef := false
    isControl := true
    group := "CTR"
    sampleLabel := "CTR-1"
    dct := 4 }

/-- The working row loaded from the first raw row of `tbl1`. -/
def w1 : WRow :=
  { controlSearch := "CTR-1"
    refSearch := "ACTB"
    sampleName := "CTR-1"
    cq := 18
    well := .str "A1"
    isRef := true
    isControl := true
    group := "CTR"
    sampleLabel := "CTR-1" }

/-! Theorems.  First, helper lemmas about the sorting and order-statistic
primitives, shared by several claims. -/

theorem mem_insertByLt {α : Type} (lt : α → α → Bool) (x : α) (l : List α) (a : α) :
    a ∈ insertByLt lt x l ↔ a = x ∨ a ∈ l := by
  induction l with
  | nil => simp [insertByLt]
  | cons y ys ih =>
    simp only [insertByLt]
    by_cases h : lt x y = true
    · simp [h]
    · simp [h, ih]
      tauto

theorem length_insertByLt {α : Type} (lt : α → α → Bool) (x : α) (l : List α) :
    (insertByLt lt x l).length = l.length + 1 := by
  induction l with
  | nil => rfl
  | cons y ys ih =>
    simp only [insertByLt]
    by_cases h : lt x y = true
    · simp [h]
    · simp [h, ih]

theorem mem_sortByLt {α : Type} (lt : α → α → Bool) (l : List α) (a : α) :
    a ∈ sortByLt lt l ↔ a ∈ l := by
  induction l with
  | nil => simp [sortByLt]
  | cons y ys ih =>
    simp only [sortByLt, List.foldr] at *
    rw [mem_insertByLt, ih]
    simp

theorem length_sortByLt {α : Type} (lt : α → α → Bool) (l : List α) :
    (sortByLt lt l).length = l.length := by
  induction l with
  | nil => rfl
  | cons y ys ih =>
    simp only [sortByLt, List.foldr] at *
    rw [length_insertByLt, ih]
    simp

theorem getD_of_all_eq (l : List ℚ) (c : ℚ) (i : Nat)
    (h : ∀ x ∈ l, x = c) (hi : i < l.length) : l.getD i 0 = c := by
  rw [List.getD_eq_getElem l 0 hi]
  exact h _ (List.getElem_mem hi)

theorem sum_of_all_eq (l : List ℚ) (c : ℚ) (h : ∀ x ∈ l, x = c) :
    l.sum = c * (l.length : ℚ) := by
  induction l with
  | nil => simp
  | cons a as ih =>
    have ha : a = c := h a (by simp)
    have := ih (fun x hx => h x (by simp [hx]))
    simp only [List.sum_cons, this, ha, List.length_cons]
    push_cast
    ring

theorem meanQ_of_all_eq (l : List ℚ) (c : ℚ) (hne : l ≠ [])
    (h : ∀ x ∈ l, x = c) : meanQ l = c := by
  have hlen : (l.length : ℚ) ≠ 0 := by
    simpa using hne
  rw [meanQ, sum_of_all_eq l c h, mul_div_assoc, div_self hlen, mul_one]

theorem meanQ_of_all_zero (l : List ℚ) (h : ∀ x ∈ l, x = 0) : meanQ l = 0 := by
  cases l with
  | nil => simp [meanQ]
  | cons a as => exact meanQ_of_all_eq _ 0 (by simp) h

theorem medianQ_of_all_eq (l : List ℚ) (c : ℚ) (hne : l ≠ [])
    (h : ∀ x ∈ l, x = c) : medianQ l = c := by
  have hmem : ∀ x ∈ sortQ l, x = c := fun x hx =>
    h x ((mem_sortByLt _ l x).1 hx)
  have hlen : (sortQ l).length = l.length := length_sortByLt _ l
  have hpos : 0 < (sortQ l).length := by
    rw [hlen]; exact List.length_pos.2 hne
  simp only [medianQ]
  rw [if_neg (Nat.pos_iff_ne_zero.1 hpos)]
  by_cases hodd : (sortQ l).length % 2 = 1
  · rw [if_pos hodd]
    exact getD_of_all_eq _ c _ hmem (Nat.div_lt_self hpos (by norm_num))
  · rw [if_neg hodd]
    have h1 : (sortQ l).length / 2 < (sortQ l).length :=
      Nat.div_lt_self hpos (by norm_num)
    have h2 : (sortQ l).length / 2 - 1 < (sortQ l).length :=
      lt_of_le_of_lt (Nat.sub_le _ _) h1
    rw [getD_of_all_eq _ c _ hmem h1, getD_of_all_eq _ c _ hmem h2]
    ring

theorem medianQ_of_all_zero (l : List ℚ) (h : ∀ x ∈ l, x = 0) : medianQ l = 0 := by
  cases l with
  | nil => rfl
  | cons a as => exact medianQ_of_all_eq _ 0 (by simp) h

theorem quantileQ_of_all_eq (l : List ℚ) (c p : ℚ) (hne : l ≠ [])
    (hp1 : p ≤ 1) (h : ∀ x ∈ l, x = c) : quantileQ l p = c := by
  have hmem : ∀ x ∈ sortQ l, x = c := fun x hx =>
    h x ((mem_sortByLt _ l x).1 hx)
  have hlen : (sortQ l).length = l.length := length_sortByLt _ l
  have hpos : 0 < (sortQ l).length := by
    rw [hlen]; exact List.length_pos.2 hne
  simp only [quantileQ]
  rw [if_neg (Nat.pos_iff_ne_zero.1 hpos)]
  have hidx : (⌊p * (((sortQ l).length : ℚ) - 1)⌋).toNat < (sortQ l).length := by
    have hb : p * (((sortQ l).length : ℚ) - 1) ≤ ((sortQ l).length : ℚ) - 1 := by
      have hn1 : (0 : ℚ) ≤ ((sortQ l).length : ℚ) - 1 := by
        have : (1 : ℚ) ≤ ((sortQ l).length : ℚ) := by exact_mod_cast hpos
        linarith
      nlinarith
    have hfl : ⌊p * (((sortQ l).length : ℚ) - 1)⌋ ≤ ((sortQ l).length : ℤ) - 1 := by
      have : (((sortQ l).length : ℤ) - 1 : ℤ) = ⌊(((sortQ l).length : ℚ) - 1 : ℚ)⌋ := by
        rw [show (((sortQ l).length : ℚ) - 1 : ℚ) = (((sortQ l).length : ℤ) - 1 : ℤ) by push_cast; ring]
        rw [Int.floor_intCast]
      rw [this]
      exact Int.floor_le_floor hb
    have := Int.toNat_le_toNat hfl
    omega
  by_cases hbr : (⌊p * (((sortQ l).length : ℚ) - 1)⌋).toNat + 1 < (sortQ l).length
  · rw [if_pos hbr]
    rw [getD_of_all_eq _ c _ hmem hidx, getD_of_all_eq _ c _ hmem hbr]
    ring
  · rw [if_neg hbr]
    exact getD_of_all_eq _ c _ hmem hidx

/-- C4: a (Sample, Gene) partition with fewer than `outlier_min_reps` rows is
never filtered — none of its rows is flagged, every one of them survives to
the ΔCt stage, and none is recorded as an outlier — for every configuration
(any estimator, any threshold, any values). -/
theorem claim_c4_small_partition_never_filtered :
    ∀ (c : Config) (t : Table) (r : WRow), r ∈ loadRows c t →
      (partitionOf (loadRows c t) r).length < c.outlierMinReps →
      flaggedRow c (loadRows c t) r = false ∧
      r ∈ survivingRows c t ∧
      r ∉ (filterOutliers c (loadRows c t)).2 := by
  intro c t r hr hlen
  have hflag : flaggedRow c (loadRows c t) r = false := by
    simp only [flaggedRow]
    rw [if_pos hlen]
  refine ⟨hflag, ?_, ?_⟩
  · simp only [survivingRows, filterOutliers]
    by_cases he : c.enableOutlierFilter = true
    · rw [if_pos he]
      exact List.mem_filter.2 ⟨hr, by simp [hflag]⟩
    · rw [if_neg he]
      exact hr
  · simp only [filterOutliers]
    by_cases he : c.enableOutlierFilter = true
    · rw [if_pos he]
      intro hmem
      have hd := (List.mem_filter.1 hmem).2
      simp [hflag] at hd
    · rw [if_neg he]
      simp

/-- Witness for C4: the first well of the end-to-end scenario sits in a
1-row partition (below the default floor of 3) and is kept. -/
theorem claim_c4_witness :
    w1 ∈ loadRows cfg1 tbl1 ∧
    (partitionOf (loadRows cfg1 tbl1) w1).length < cfg1.outlierMinReps ∧
    flaggedRow cfg1 (loadRows cfg1 tbl1) w1 = false ∧
    w1 ∈ survivingRows cfg1 tbl1 :=
  have h1 : w1 ∈ loadRows cfg1 tbl1 := by with_unfolding_all decide
  have h2 : (partitionOf (loadRows cfg1 tbl1) w1).length < cfg1.outlierMinReps := by
    with_unfolding_all decide
  ⟨h1, h2, (claim_c4_small_partition_never_filtered cfg1 tbl1 w1 h1 h2).1,
    (claim_c4_small_partition_never_filtered cfg1 tbl1 w1 h1 h2).2.1⟩

/-- C5: on a partition whose quantification values are all identical, each of
the three estimators (mad, iqr, zscore) flags nothing, for every threshold —
stated both for `_flag_outliers` on the raw series and for the partition-level
flag of the pipeline. -/
theorem claim_c5_zero_spread_flags_nothing :
    (∀ (m : String), m = "mad" ∨ m = "iqr" ∨ m = "zscore" →
      ∀ (thresh v : ℚ) (vals : List ℚ), (∀ x ∈ vals, x = v) → v ∈ vals →
        flagOutlierVal m thresh vals v = false) ∧
    (∀ (c : Config) (t : Table) (r : WRow),
      (lowerStr c.outlierMethod = "mad" ∨ lowerStr c.outlierMethod = "iqr" ∨
        lowerStr c.outlierMethod = "zscore") →
      r ∈ loadRows c t →
      (∀ r2 ∈ partitionOf (loadRows c t) r, r2.cq = r.cq) →
      flaggedRow c (loadRows c t) r = false) := by
  have hseries : ∀ (m : String), m = "mad" ∨ m = "iqr" ∨ m = "zscore" →
      ∀ (thresh v : ℚ) (vals : List ℚ), (∀ x ∈ vals, x = v) → v ∈ vals →
        flagOutlierVal m thresh vals v = false := by
    intro m hm thresh v vals hall hv
    have hne : vals ≠ [] := List.ne_nil_of_mem hv
    rcases hm with rfl | rfl | rfl
    · have hmed : medianQ vals = v := medianQ_of_all_eq vals v hne hall
      have hdev : medianQ (vals.map fun x => |x - medianQ vals|) = 0 := by
        apply medianQ_of_all_zero
        intro y hy
        obtain ⟨x, hx, rfl⟩ := List.mem_map.1 hy
        rw [hmed, hall x hx]
        simp
      simp [flagOutlierVal, hdev]
    · have hq1 : quantileQ vals (1/4) = v :=
        quantileQ_of_all_eq vals v (1/4) hne (by norm_num) hall
      have hq3 : quantileQ vals (3/4) = v :=
        quantileQ_of_all_eq vals v (3/4) hne (by norm_num) hall
      have hiqr : quantileQ vals (3/4) - quantileQ vals (1/4) = 0 := by
        rw [hq1, hq3, sub_self]
      simp only [flagOutlierVal]
      rw [hiqr]
      simp
    · have hmu : meanQ vals = v := meanQ_of_all_eq vals v hne hall
      have hv2 : meanQ (vals.map fun x => (x - meanQ vals) * (x - meanQ vals)) = 0 := by
        apply meanQ_of_all_zero
        intro y hy
        obtain ⟨x, hx, rfl⟩ := List.mem_map.1 hy
        rw [hmu, hall x hx]
        ring
      simp [flagOutlierVal, hv2]
  refine ⟨hseries, ?_⟩
  intro c t r hm hr hconst
  simp only [flaggedRow]
  by_cases hlen : (partitionOf (loadRows c t) r).length < c.outlierMinReps
  · rw [if_pos hlen]
  · rw [if_neg hlen]
    have hrg : r ∈ partitionOf (loadRows c t) r := by
      simp [partitionOf, List.mem_filter, hr]
    refine hseries _ hm c.outlierThreshold r.cq _ ?_ (List.mem_map.2 ⟨r, hrg, rfl⟩)
    intro x hx
    obtain ⟨r2, hr2, rfl⟩ := List.mem_map.1 hx
    exact hconst r2 hr2

/-- Witness for C5: a constant 3-well series under "mad" at threshold 3. -/
theorem claim_c5_witness :
    (∀ x ∈ ([5, 5, 5] : List ℚ), x = 5) ∧ (5 : ℚ) ∈ ([5, 5, 5] : List ℚ) ∧
    flagOutlierVal "mad" 3 [5, 5, 5] 5 = false :=
  ⟨by with_unfolding_all decide, by with_unfolding_all decide,
   claim_c5_zero_spread_flags_nothing.1 "mad" (Or.inl rfl) 3 5 [5, 5, 5]
     (by with_unfolding_all decide) (by with_unfolding_all decide)⟩

theorem flagOutlierVal_unknown (m : String) (h1 : m ≠ "mad") (h2 : m ≠ "iqr")
    (h3 : m ≠ "zscore") (thresh : ℚ) (vals : List ℚ) (v : ℚ) :
    flagOutlierVal m thresh vals v = false := by
  simp only [flagOutlierVal]
  rw [if_neg h1, if_neg h2, if_neg h3]

theorem filterOutliers_unknown (c : Config) (rows : List WRow)
    (h : lowerStr c.outlierMethod ∉ (["mad", "iqr", "zscore"] : List String)) :
    filterOutliers c rows = (rows, []) := by
  have h1 : lowerStr c.outlierMethod ≠ "mad" := fun he => h (by simp [he])
  have h2 : lowerStr c.outlierMethod ≠ "iqr" := fun he => h (by simp [he])
  have h3 : lowerStr c.outlierMethod ≠ "zscore" := fun he => h (by simp [he])
  have hflag : ∀ r, flaggedRow c rows r = false := by
    intro r
    simp only [flaggedRow]
    by_cases hl : (partitionOf rows r).length < c.outlierMinReps
    · rw [if_pos hl]
    · rw [if_neg hl]
      exact flagOutlierVal_unknown _ h1 h2 h3 _ _ _
  simp only [filterOutliers]
  by_cases he : c.enableOutlierFilter = true
  · rw [if_pos he, Prod.mk.injEq]
    constructor
    · exact List.filter_eq_self.2 (fun a _ => by simp [hflag])
    · exact List.filter_eq_nil_iff.2 (fun a _ => by simp [hflag])
  · rw [if_neg he]

/-- C9: a configured outlier method whose lower-cased name is none of
"mad"/"iqr"/"zscore" raises nothing and filters nothing: the entire run —
returned tables, raised error, and workbook writes alike — is identical to a
run with the outlier filter disabled. -/
theorem claim_c9_unknown_method_like_disabled :
    ∀ (c : Config) (t : Table) (p : String) (o : Option String),
      lowerStr c.outlierMethod ∉ (["mad", "iqr", "zscore"] : List String) →
      runDdct c t p o = runDdct { c with enableOutlierFilter := false } t p o := by
  intro c t p o h
  have hc : computeDdct c t = computeDdct { c with enableOutlierFilter := false } t := by
    have hL : filterOutliers c (loadRows c t) = (loadRows c t, []) :=
      filterOutliers_unknown c _ h
    have hR : filterOutliers { c with enableOutlierFilter := false }
        (loadRows { c with enableOutlierFilter := false } t) =
        (loadRows { c with enableOutlierFilter := false } t, []) := by
      simp [filterOutliers]
    have hS : survivingRows c t = loadRows c t := by
      simp only [survivingRows, hL]
    have hS' : survivingRows { c with enableOutlierFilter := false } t =
        loadRows { c with enableOutlierFilter := false } t := by
      simp [survivingRows, filterOutliers]
    simp only [computeDdct, sampleSourceOf, hS, hS', hL, hR]
    rfl
  simp only [runDdct, hc]
  rfl

/-- Witness for C9: method name "median" behaves exactly like a disabled
filter on the end-to-end scenario. -/
theorem claim_c9_witness :
    lowerStr cfgMedian.outlierMethod ∉ (["mad", "iqr", "zscore"] : List String) ∧
    runDdct cfgMedian tbl1 "in.xlsx" none =
      runDdct { cfgMedian with enableOutlierFilter := false } tbl1 "in.xlsx" none :=
  ⟨by with_unfolding_all decide,
   claim_c9_unknown_method_like_disabled cfgMedian tbl1 "in.xlsx" none
     (by with_unfolding_all decide)⟩

set_option maxRecDepth 4000 in
/-- C1: on the spec's four-row end-to-end scenario with control pattern
`^CTR` and reference pattern `ACTB` under otherwise default configuration,
the engine computes ΔCt(CTR-1, GeneX) = 4, control baseline(GeneX) = 4,
ΔΔCt(MT-1, GeneX) = 3/2, and Fold Change(MT-1, GeneX) = 2 ^ (-(3/2))
(the fold-change column being `2 ^ (-ΔΔCt)` of the same well row). -/
theorem claim_c1_end_to_end :
    wellField (computeDdct cfg1 tbl1) "CTR-1" "GeneX" (fun r => r.dct) = some 4 ∧
    controlBaseline (withDct (survivingRows cfg1 tbl1)) "GeneX" = some 4 ∧
    wellField (computeDdct cfg1 tbl1) "MT-1" "GeneX" (fun r => r.ddct) = some (3/2) ∧
    (wellField (computeDdct cfg1 tbl1) "MT-1" "GeneX" (fun r => r.ddct)).map
        (fun d => (2 : ℝ) ^ (-(d : ℝ))) =
      some ((2 : ℝ) ^ (-(3/2) : ℝ)) := by
  have hddct : wellField (computeDdct cfg1 tbl1) "MT-1" "GeneX" (fun r => r.ddct) =
      some (3/2) := by with_unfolding_all decide
  refine ⟨by with_unfolding_all decide, by with_unfolding_all decide, hddct, ?_⟩
  rw [hddct]
  norm_num

/-- C6: the run fails with a schema error exactly when one of the five
configured column names is absent from the sheet, and the error data then
names every missing configured column and every column actually present. -/
theorem claim_c6_schema_error_iff :
    ∀ (c : Config) (t : Table),
      ((∃ m p, computeDdct c t = .error (.schema m p)) ↔
        ∃ col ∈ [c.controlSearchCol, c.refSearchCol, c.sampleNameCol, c.cqCol, c.wellCol],
          col ∉ t.columns) ∧
      (∀ m p, computeDdct c t = .error (.schema m p) →
        (∀ col ∈ [c.controlSearchCol, c.refSearchCol, c.sampleNameCol, c.cqCol, c.wellCol],
            col ∉ t.columns → col ∈ m) ∧
        (∀ col ∈ t.columns, col ∈ p)) := by
  intro c t
  by_cases hm : (missingCols c t).isEmpty = true
  · have hnoschema : ∀ m p, computeDdct c t ≠ .error (.schema m p) := by
      intro m p hmp
      simp only [computeDdct, hm] at hmp
      split_ifs at hmp <;> simp_all
    constructor
    · constructor
      · rintro ⟨m, p, hmp⟩
        exact absurd hmp (hnoschema m p)
      · rintro ⟨col, hcol5, hcolnot⟩
        exfalso
        have hmem : col ∈ missingCols c t :=
          List.mem_filter.2 ⟨List.mem_dedup.2 hcol5, by simpa using hcolnot⟩
        rw [List.isEmpty_iff] at hm
        rw [hm] at hmem
        simp at hmem
    · intro m p hmp
      exact absurd hmp (hnoschema m p)
  · have hres : computeDdct c t = .error (.schema (missingCols c t) t.columns) := by
      simp only [computeDdct]
      rw [if_neg hm]
    have hne : missingCols c t ≠ [] := fun he => hm (by simp [he])
    constructor
    · constructor
      · intro _
        obtain ⟨col, hcolmem⟩ := List.exists_mem_of_ne_nil _ hne
        have h5 := List.mem_filter.1 hcolmem
        exact ⟨col, List.mem_dedup.1 h5.1, by simpa using h5.2⟩
      · intro _
        exact ⟨_, _, hres⟩
    · intro m p hmp
      rw [hres] at hmp
      simp only [Except.error.injEq, QError.schema.injEq] at hmp
      obtain ⟨hm1, hp1⟩ := hmp
      constructor
      · intro col h5 hnot
        rw [← hm1]
        exact List.mem_filter.2 ⟨List.mem_dedup.2 h5, by simpa using hnot⟩
      · intro col hc
        rw [← hp1]
        exact hc

/-- Witness for C6: dropping the "Well" column triggers the schema error. -/
theorem claim_c6_witness :
    (∃ col ∈ [cfg1.controlSearchCol, cfg1.refSearchCol, cfg1.sampleNameCol, cfg1.cqCol,
        cfg1.wellCol], col ∉ tblNoWell.columns) ∧
    (∃ m p, computeDdct cfg1 tblNoWell = .error (.schema m p)) :=
  have h : ∃ col ∈ [cfg1.controlSearchCol, cfg1.refSearchCol, cfg1.sampleNameCol,
      cfg1.cqCol, cfg1.wellCol], col ∉ tblNoWell.columns :=
    ⟨"Well", by with_unfolding_all decide, by with_unfolding_all decide⟩
  ⟨h, ((claim_c6_schema_error_iff cfg1 tblNoWell).1).2 h⟩

/-- C7: a run that ends in any terminal error performs no workbook write;
conversely, any write implies the run succeeded — writing happens only after
every validation has passed. -/
theorem claim_c7_no_write_on_error :
    ∀ (c : Config) (t : Table) (p : String) (o : Option String),
      (∀ e, (runDdct c t p o).2 = .error e → (runDdct c t p o).1 = []) ∧
      ((runDdct c t p o).1 ≠ [] → ∃ out, (runDdct c t p o).2 = .ok out) := by
  intro c t p o
  constructor
  · intro e he
    unfold runDdct at he ⊢
    cases h : computeDdct c t with
    | error e2 => rfl
    | ok out =>
      rw [h] at he
      simp at he
  · intro hne
    unfold runDdct at hne ⊢
    cases h : computeDdct c t with
    | error e2 =>
      rw [h] at hne
      simp at hne
    | ok out =>
      exact ⟨out, by simp⟩

/-- Witness for C7: the schema-error run on `tblNoWell` writes nothing. -/
theorem claim_c7_witness :
    (runDdct cfg1 tblNoWell "in.xlsx" none).2 =
      .error (.schema ["Well"] ["Target", "Sample", "Cq"]) ∧
    (runDdct cfg1 tblNoWell "in.xlsx" none).1 = [] :=
  have h2 : (runDdct cfg1 tblNoWell "in.xlsx" none).2 =
      .error (.schema ["Well"] ["Target", "Sample", "Cq"]) := by
    with_unfolding_all rfl
  ⟨h2, (claim_c7_no_write_on_error cfg1 tblNoWell "in.xlsx" none).1 _ h2⟩

theorem refMean_eq_none_iff (rows : List WRow) (s : String) :
    refMean rows s = none ↔
      ∀ r2 ∈ rows, ¬(r2.isRef = true ∧ r2.sampleLabel = s) := by
  constructor
  · intro h r2 hr2 hand
    have hmem : r2 ∈ rows.filter (fun r => r.isRef = true ∧ r.sampleLabel = s) :=
      List.mem_filter.2 ⟨hr2, by simp [hand.1, hand.2]⟩
    have hne2 : rows.filter (fun r => r.isRef = true ∧ r.sampleLabel = s) ≠ [] :=
      List.ne_nil_of_mem hmem
    simp only [refMean] at h
    rw [if_neg (fun he => hne2 (List.isEmpty_iff.1 he))] at h
    simp at h
  · intro hall
    have hfil : rows.filter (fun r => decide (r.isRef = true ∧ r.sampleLabel = s)) = [] :=
      List.filter_eq_nil_iff.2 (fun a ha => by simpa using hall a ha)
    simp only [refMean, hfil]
    rfl

theorem mem_noRefSamples_iff (rows : List WRow) (s : String) :
    s ∈ noRefSamples rows ↔
      ∃ r ∈ rows, r.sampleLabel = s ∧ refMean rows s = none := by
  simp only [noRefSamples, List.mem_dedup, List.mem_map, List.mem_filter]
  constructor
  · rintro ⟨r, ⟨hr, hnone⟩, rfl⟩
    exact ⟨r, hr, rfl, by simpa [Option.isNone_iff_eq_none] using hnone⟩
  · rintro ⟨r, hr, hlab, hnone⟩
    refine ⟨r, ⟨hr, ?_⟩, hlab⟩
    rw [hlab]
    simp [Option.isNone_iff_eq_none, hnone]

theorem computeDdct_missingReference_iff (c : Config) (t : Table)
    (hm : (missingCols c t).isEmpty = true) (hc : hasControlB c t = true) :
    ∀ l, computeDdct c t = .error (.missingReference l) ↔
      (noRefSamples (survivingRows c t) = l ∧ l ≠ []) := by
  intro l
  have hc' : ((loadRows c t).any fun r => r.isControl) = true := hc
  constructor
  · intro h
    simp [computeDdct, hm, hc'] at h
    by_cases hr : noRefSamples (survivingRows c t) = []
    · rw [if_pos hr] at h
      split_ifs at h <;> simp_all
    · rw [if_neg hr] at h
      simp only [Except.error.injEq, QError.missingReference.injEq] at h
      refine ⟨h, ?_⟩
      rw [← h]
      exact hr
  · rintro ⟨hl, hne⟩
    subst hl
    simp [computeDdct, hm, hc']
    intro he
    exact absurd he hne

/-- C3 (amended): once the schema check and the control-match check have
passed, the run fails with MissingReferenceError exactly when some sample of
the working table (rows with numeric Cq, outliers removed) has no
reference-gene row there, and the error then names exactly the affected
sample labels. -/
theorem claim_c3_corrected_missing_reference :
    ∀ (c : Config) (t : Table),
      (missingCols c t).isEmpty = true →
      hasControlB c t = true →
      (((∃ l, computeDdct c t = .error (.missingReference l)) ↔
          ∃ r ∈ survivingRows c t,
            ∀ r2 ∈ survivingRows c t,
              ¬(r2.isRef = true ∧ r2.sampleLabel = r.sampleLabel)) ∧
        (∀ l, computeDdct c t = .error (.missingReference l) →
          ∀ s, s ∈ l ↔
            ∃ r ∈ survivingRows c t, r.sampleLabel = s ∧
              ∀ r2 ∈ survivingRows c t,
                ¬(r2.isRef = true ∧ r2.sampleLabel = s))) := by
  intro c t hm hc
  have hchar := computeDdct_missingReference_iff c t hm hc
  constructor
  · constructor
    · rintro ⟨l, hl⟩
      obtain ⟨heq, hne⟩ := (hchar l).1 hl
      have hnenil : noRefSamples (survivingRows c t) ≠ [] := by
        rw [heq]; exact hne
      obtain ⟨s, hs⟩ := List.exists_mem_of_ne_nil _ hnenil
      obtain ⟨r, hr, hlab, hnone⟩ := (mem_noRefSamples_iff _ _).1 hs
      refine ⟨r, hr, ?_⟩
      rw [hlab]
      exact (refMean_eq_none_iff _ _).1 hnone
    · rintro ⟨r, hr, hall⟩
      have hnone : refMean (survivingRows c t) r.sampleLabel = none :=
        (refMean_eq_none_iff _ _).2 hall
      have hsmem : r.sampleLabel ∈ noRefSamples (survivingRows c t) :=
        (mem_noRefSamples_iff _ _).2 ⟨r, hr, rfl, hnone⟩
      exact ⟨_, (hchar _).2 ⟨rfl, List.ne_nil_of_mem hsmem⟩⟩
  · intro l hl s
    obtain ⟨heq, _⟩ := (hchar l).1 hl
    rw [← heq, mem_noRefSamples_iff]
    constructor
    · rintro ⟨r, hr, hlab, hnone⟩
      exact ⟨r, hr, hlab, (refMean_eq_none_iff _ _).1 hnone⟩
    · rintro ⟨r, hr, hlab, hall⟩
      exact ⟨r, hr, hlab, (refMean_eq_none_iff _ _).2 hall⟩

/-- Counterexample for C3 as stated: on `tblNoCtl` the working table does
contain a sample ("X-1") with no reference-gene row, yet the engine does not
fail with MissingReferenceError — the earlier control-match check fails
first, so the stated "if and only if" is false without the provisos. -/
theorem claim_c3_counterexample :
    computeDdct cfgNoCtl tblNoCtl = .error .noControlMatch ∧
    survivingRows cfgNoCtl tblNoCtl = [wX] ∧
    noRefSamples (survivingRows cfgNoCtl tblNoCtl) = ["X-1"] := by
  refine ⟨?_, ?_, ?_⟩ <;> with_unfolding_all rfl

/-- Witness for C3 (amended): the spec's missing-reference scenario — sample
CTR-1 carries only target-gene rows — satisfies both provisos, and the run
raises MissingReferenceError naming "CTR-1". -/
theorem claim_c3_witness :
    (missingCols cfg1 tblRefMiss).isEmpty = true ∧
    hasControlB cfg1 tblRefMiss = true ∧
    computeDdct cfg1 tblRefMiss = .error (.missingReference ["CTR-1"]) ∧
    ((∃ l, computeDdct cfg1 tblRefMiss = .error (.missingReference l)) ↔
      ∃ r ∈ survivingRows cfg1 tblRefMiss,
        ∀ r2 ∈ survivingRows cfg1 tblRefMiss,
          ¬(r2.isRef = true ∧ r2.sampleLabel = r.sampleLabel)) :=
  ⟨by with_unfolding_all decide, by with_unfolding_all decide,
   by with_unfolding_all rfl,
   (claim_c3_corrected_missing_reference cfg1 tblRefMiss
     (by with_unfolding_all decide) (by with_unfolding_all decide)).1⟩

/-- C10 (amended): the control-match check runs before outlier filtering, so
whenever at least one numeric-Cq row matches the control pattern the run can
never fail with NoControlMatchError — whatever the outlier filter later
removes. -/
theorem claim_c10_control_check_precedes_filter :
    ∀ (c : Config) (t : Table), hasControlB c t = true →
      computeDdct c t ≠ .error .noControlMatch := by
  intro c t hc h
  have hc' : ((loadRows c t).any fun r => r.isControl) = true := hc
  simp only [computeDdct, hc'] at h
  split_ifs at h <;> simp_all

/-- Counterexample for C10's parenthetical claim that a run whose
control-matching rows are all removed by the outlier filter "raises
MissingControlBaselineError or succeeds": here every control row is removed,
and the run raises MissingReferenceError instead. -/
theorem claim_c10_counterexample :
    hasControlB cfg10 tbl10 = true ∧
    ((loadRows cfg10 tbl10).filter (fun r => r.isControl = true)).length = 4 ∧
    (survivingRows cfg10 tbl10).filter (fun r => r.isControl = true) = [] ∧
    computeDdct cfg10 tbl10 = .error (.missingReference ["MT-1"]) := by
  refine ⟨?_, ?_, ?_, ?_⟩ <;> with_unfolding_all rfl

/-- Witness for C10 (amended) on the end-to-end scenario. -/
theorem claim_c10_witness :
    hasControlB cfg1 tbl1 = true ∧
    computeDdct cfg1 tbl1 ≠ .error .noControlMatch :=
  ⟨by with_unfolding_all decide,
   claim_c10_control_check_precedes_filter cfg1 tbl1 (by with_unfolding_all decide)⟩

theorem controlBaseline_eq_mean_of_means (rows : List DRow) (g : String)
    (h : controlSamplesForGene rows g ≠ []) :
    controlBaseline rows g =
      some (((controlSamplesForGene rows g).map
          (fun s => (controlDcts rows s g).sum / ((controlDcts rows s g).length : ℚ))).sum /
        ((controlSamplesForGene rows g).length : ℚ)) := by
  simp only [controlBaseline]
  rw [if_neg (fun he => h (List.isEmpty_iff.1 he))]
  simp [meanQ, perSampleControlMean]

theorem computeDdct_ok_noBase (c : Config) (t : Table) (out : RunOutput)
    (h : computeDdct c t = .ok out) :
    noBaselineGenes (withDct (survivingRows c t)) = [] := by
  simp [computeDdct] at h
  split_ifs at h
  simp_all

theorem mem_noBaselineGenes (rows : List DRow) (r : DRow) (hr : r ∈ rows)
    (hnone : controlBaseline rows r.refSearch = none) :
    r.refSearch ∈ noBaselineGenes rows := by
  simp only [noBaselineGenes, List.mem_dedup, List.mem_map]
  exact ⟨r, List.mem_filter.2 ⟨hr, by simp [hnone]⟩, rfl⟩

/-- C2: on every successful run, each surviving row's gene has a control
baseline computed as a mean of per-control-sample means (each inner mean a
sum over that sample's control ΔCt wells divided by its well count, the
outer mean dividing by the number of distinct control samples); in
particular, with two control samples the baseline is the plain average of
their two per-sample means, regardless of their replicate counts. -/
theorem claim_c2_baseline_mean_of_means :
    (∀ (c : Config) (t : Table) (out : RunOutput), computeDdct c t = .ok out →
      ∀ r ∈ withDct (survivingRows c t),
        controlSamplesForGene (withDct (survivingRows c t)) r.refSearch ≠ [] ∧
        controlBaseline (withDct (survivingRows c t)) r.refSearch =
          some ((((controlSamplesForGene (withDct (survivingRows c t)) r.refSearch).map
              (fun s => (controlDcts (withDct (survivingRows c t)) s r.refSearch).sum /
                ((controlDcts (withDct (survivingRows c t)) s r.refSearch).length : ℚ))).sum /
            ((controlSamplesForGene (withDct (survivingRows c t)) r.refSearch).length : ℚ)))) ∧
    (∀ (rows : List DRow) (g s1 s2 : String),
      controlSamplesForGene rows g = [s1, s2] →
      controlBaseline rows g =
        some ((perSampleControlMean rows s1 g + perSampleControlMean rows s2 g) / 2)) := by
  constructor
  · intro c t out hok r hr
    have hnil := computeDdct_ok_noBase c t out hok
    have hne : controlSamplesForGene (withDct (survivingRows c t)) r.refSearch ≠ [] := by
      intro he
      have hnone : controlBaseline (withDct (survivingRows c t)) r.refSearch = none := by
        simp [controlBaseline, he]
      have hmem := mem_noBaselineGenes _ r hr hnone
      rw [hnil] at hmem
      simp at hmem
    exact ⟨hne, controlBaseline_eq_mean_of_means _ _ hne⟩
  · intro rows g s1 s2 h
    simp only [controlBaseline, h]
    rw [if_neg (by simp)]
    simp [meanQ, perSampleControlMean]

/-- Witness for C2: `tbl2` has control samples CTR-1 (one GeneX well) and
CTR-2 (two GeneX wells); the baseline weights both samples equally. -/
theorem claim_c2_witness :
    d2 ∈ withDct (survivingRows cfg1 tbl2) ∧
    controlSamplesForGene (withDct (survivingRows cfg1 tbl2)) "GeneX" = ["CTR-1", "CTR-2"] ∧
    controlSamplesForGene (withDct (survivingRows cfg1 tbl2)) d2.refSearch ≠ [] ∧
    controlBaseline (withDct (survivingRows cfg1 tbl2)) "GeneX" =
      some ((perSampleControlMean (withDct (survivingRows cfg1 tbl2)) "CTR-1" "GeneX" +
        perSampleControlMean (withDct (survivingRows cfg1 tbl2)) "CTR-2" "GeneX") / 2) := by
  have hmem : d2 ∈ withDct (survivingRows cfg1 tbl2) := by with_unfolding_all decide
  have hss : controlSamplesForGene (withDct (survivingRows cfg1 tbl2)) "GeneX" =
      ["CTR-1", "CTR-2"] := by with_unfolding_all decide
  have hok : ∃ out, computeDdct cfg1 tbl2 = Except.ok out := ⟨_, by with_unfolding_all rfl⟩
  obtain ⟨out, hout⟩ := hok
  exact ⟨hmem, hss,
    (claim_c2_baseline_mean_of_means.1 cfg1 tbl2 out hout d2 hmem).1,
    claim_c2_baseline_mean_of_means.2 _ "GeneX" "CTR-1" "CTR-2" hss⟩

theorem splitAtLastSep_eq_none (sep : Char) (ys : List Char) (h : sep ∉ ys) :
    splitAtLastSep sep ys = none := by
  induction ys with
  | nil => rfl
  | cons a as ih =>
    have ha : ¬a = sep := fun he => h (by simp [he])
    have has : sep ∉ as := fun hm => h (by simp [hm])
    simp only [splitAtLastSep, ih has]
    rw [if_neg ha]

theorem not_mem_of_splitAtLastSep_eq_none (sep : Char) :
    ∀ (cs : List Char), splitAtLastSep sep cs = none → sep ∉ cs := by
  intro cs
  induction cs with
  | nil =>
    intro _
    simp
  | cons a as ih =>
    intro h
    simp only [splitAtLastSep] at h
    cases hs : splitAtLastSep sep as with
    | some pair =>
      obtain ⟨b, a2⟩ := pair
      rw [hs] at h
      simp at h
    | none =>
      rw [hs] at h
      by_cases hc : a = sep
      · rw [if_pos hc] at h
        simp at h
      · intro hmem
        rcases List.mem_cons.1 hmem with he | hm
        · exact hc he.symm
        · exact (ih hs) hm

theorem splitAtLastSep_append (sep : Char) (xs ys : List Char) (hys : sep ∉ ys) :
    splitAtLastSep sep (xs ++ sep :: ys) = some (xs, ys) := by
  induction xs with
  | nil =>
    simp only [List.nil_append, splitAtLastSep]
    rw [splitAtLastSep_eq_none sep ys hys]
    simp
  | cons x xs' ih =>
    rw [List.cons_append]
    simp only [splitAtLastSep]
    rw [ih]

theorem splitAtLastSep_eq_append (sep : Char) :
    ∀ (cs b a : List Char), splitAtLastSep sep cs = some (b, a) → cs = b ++ sep :: a := by
  intro cs
  induction cs with
  | nil =>
    intro b a h
    simp [splitAtLastSep] at h
  | cons c cs' ih =>
    intro b a h
    simp only [splitAtLastSep] at h
    cases hs : splitAtLastSep sep cs' with
    | some pair =>
      obtain ⟨b2, a2⟩ := pair
      rw [hs] at h
      simp only [Option.some.injEq, Prod.mk.injEq] at h
      obtain ⟨hb, ha⟩ := h
      rw [← hb, ← ha, ih b2 a2 hs]
      simp
    | none =>
      rw [hs] at h
      by_cases hc : c = sep
      · rw [if_pos hc] at h
        simp only [Option.some.injEq, Prod.mk.injEq] at h
        obtain ⟨hb, ha⟩ := h
        rw [← hb, ← ha, hc]
        simp
      · rw [if_neg hc] at h
        simp at h

theorem not_mem_snd_splitAtLastSep (sep : Char) :
    ∀ (cs b a : List Char), splitAtLastSep sep cs = some (b, a) → sep ∉ a := by
  intro cs
  induction cs with
  | nil =>
    intro b a h
    simp [splitAtLastSep] at h
  | cons c cs' ih =>
    intro b a h
    simp only [splitAtLastSep] at h
    cases hs : splitAtLastSep sep cs' with
    | some pair =>
      obtain ⟨b2, a2⟩ := pair
      rw [hs] at h
      simp only [Option.some.injEq, Prod.mk.injEq] at h
      rw [← h.2]
      exact ih b2 a2 hs
    | none =>
      rw [hs] at h
      by_cases hc : c = sep
      · rw [if_pos hc] at h
        simp only [Option.some.injEq, Prod.mk.injEq] at h
        rw [← h.2]
        exact not_mem_of_splitAtLastSep_eq_none sep cs' hs
      · rw [if_neg hc] at h
        simp at h

theorem str_data_append (s1 s2 : String) : (s1 ++ s2).data = s1.data ++ s2.data := rfl

theorem not_slash_osSplit_snd (p : String) : '/' ∉ ((osSplit p).2).data := by
  simp only [osSplit]
  cases hs : splitAtLastSep '/' p.data with
  | none => exact not_mem_of_splitAtLastSep_eq_none '/' p.data hs
  | some pair =>
    obtain ⟨b, a⟩ := pair
    exact not_mem_snd_splitAtLastSep '/' p.data b a hs

theorem not_slash_osSplitext_fst (stem : String) (h : '/' ∉ stem.data) :
    '/' ∉ ((osSplitext stem).1).data := by
  simp only [osSplitext]
  cases hs : splitAtLastSep '.' stem.data with
  | none => exact h
  | some pair =>
    obtain ⟨b, a⟩ := pair
    show '/' ∉ ((if (b.all fun ch => ch = '.') = true then (stem, "")
      else (String.mk b, String.mk ('.' :: a))).1).data
    by_cases hall : (b.all fun ch => ch = '.') = true
    · rw [if_pos hall]
      exact h
    · rw [if_neg hall]
      intro hmem
      have hd := splitAtLastSep_eq_append '.' stem.data b a hs
      rw [hd] at h
      exact h (List.mem_append.2 (Or.inl hmem))

theorem osSplit_osJoin (base fname : String) (hb : base ≠ "")
    (hlast : ¬base.data.getLast? = some '/') (hf : '/' ∉ fname.data) :
    osSplit (osJoin base fname) = (base, fname) := by
  have hjoin : osJoin base fname = base ++ "/" ++ fname := by
    simp only [osJoin]
    rw [if_neg hb, if_neg hlast]
  have hdata : (base ++ "/" ++ fname).data = base.data ++ '/' :: fname.data := by
    rw [str_data_append, str_data_append]
    simp
  have hbd : base.data ≠ [] := fun he => hb (String.ext (he.trans rfl))
  rw [hjoin]
  simp only [osSplit, hdata, splitAtLastSep_append '/' base.data fname.data hf]
  show (String.mk
      (if (((base.data ++ ['/']).reverse.dropWhile (fun ch => ch = '/')).reverse).isEmpty = true
        then base.data ++ ['/']
        else ((base.data ++ ['/']).reverse.dropWhile (fun ch => ch = '/')).reverse),
    String.mk fname.data) = (base, fname)
  have h2 : ((base.data ++ ['/']).reverse.dropWhile (fun ch => ch = '/')) =
      base.data.reverse := by
    have h1 : (base.data ++ ['/']).reverse = '/' :: base.data.reverse := by simp
    rw [h1, List.dropWhile_cons, if_pos (by simp)]
    cases hrv : base.data.reverse with
    | nil => exact absurd (by simpa using hrv) hbd
    | cons hch tl =>
      have hhead : base.data.getLast? = some hch := by
        rw [← List.head?_reverse, hrv]
        rfl
      have hh : ¬hch = '/' := fun he => hlast (by rw [hhead, he])
      rw [List.dropWhile_cons, if_neg (by simp [hh])]
  rw [h2]
  simp only [List.reverse_reverse]
  rw [if_neg (fun he => hbd (List.isEmpty_iff.1 he))]

/-- Counterexample for C8: for input path `/tmp/data.xls`, the source always
rewrites the extension to `.xlsx` (`f"{root}_ddct.xlsx"`), while the claim's
"extension is kept" rule would produce `/tmp/data_ddct.xls`. -/
theorem claim_c8_counterexample :
    resolveOutputPath "/tmp/data.xls" none = "/tmp/data_ddct.xlsx" ∧
    specDefaultOutputPath "/tmp/data.xls" = "/tmp/data_ddct.xls" ∧
    resolveOutputPath "/tmp/data.xls" none ≠ specDefaultOutputPath "/tmp/data.xls" := by
  refine ⟨?_, ?_, ?_⟩ <;> decide

/-- C8 (amended): with no explicit output path, the artifact is named from
the input's stem with the original extension replaced — directory of the
input (or "."), stem without its extension, then the fixed suffix
`_ddct.xlsx`; in particular, for any input whose directory part is a normal
path (nonempty, not slash-terminated), the output's directory is exactly the
input's directory. -/
theorem claim_c8_corrected_default_output_path :
    (∀ p : String,
      resolveOutputPath p none =
        osJoin (if (osSplit p).1 = "" then "." else (osSplit p).1)
          ((osSplitext (osSplit p).2).1 ++ "_ddct.xlsx")) ∧
    (∀ p : String, (osSplit p).1 ≠ "" → ¬((osSplit p).1).data.getLast? = some '/' →
      osSplit (resolveOutputPath p none) =
        ((osSplit p).1, (osSplitext (osSplit p).2).1 ++ "_ddct.xlsx")) := by
  constructor
  · intro p
    rfl
  · intro p hb hlast
    have hstem : '/' ∉ ((osSplit p).2).data := not_slash_osSplit_snd p
    have hroot : '/' ∉ ((osSplitext (osSplit p).2).1).data :=
      not_slash_osSplitext_fst _ hstem
    have hfname : '/' ∉ (((osSplitext (osSplit p).2).1 ++ "_ddct.xlsx")).data := by
      rw [str_data_append]
      intro hmem
      rcases List.mem_append.1 hmem with hm | hm
      · exact hroot hm
      · simp at hm
    have hres : resolveOutputPath p none =
        osJoin (osSplit p).1 ((osSplitext (osSplit p).2).1 ++ "_ddct.xlsx") := by
      simp only [resolveOutputPath]
      rw [if_neg hb]
    rw [hres]
    exact osSplit_osJoin _ _ hb hlast hfname

/-- Witness for C8 (amended): the counterexample's path has directory
`/tmp`, and the output lands in `/tmp` with the `.xlsx` name. -/
theorem claim_c8_witness :
    (osSplit "/tmp/data.xls").1 ≠ "" ∧
    ¬((osSplit "/tmp/data.xls").1).data.getLast? = some '/' ∧
    osSplit (resolveOutputPath "/tmp/data.xls" none) = ("/tmp", "data_ddct.xlsx") :=
  have h1 : (osSplit "/tmp/data.xls").1 ≠ "" := by decide
  have h2 : ¬((osSplit "/tmp/data.xls").1).data.getLast? = some '/' := by decide
  ⟨h1, h2, by
    have h := claim_c8_corrected_default_output_path.2 "/tmp/data.xls" h1 h2
    rw [h]
    decide⟩

end QPCR
